import Mathlib

/-
Verification of the doni reconciliation workers (Ironic and Blazar
integrations) against their natural-language specification.

The Python source is shallowly embedded: every external HTTP call the worker
would issue is recorded in a trace (`ICall` / `BCall`), the responses the
external services would give are supplied up front as an environment value,
and exceptions are modelled with `Except`.  Dictionaries are association
lists in insertion order with no duplicate keys (the invariant Python dicts
maintain); a value of `PyVal.vnone` is Python's `None`.
-/

namespace Doni

/-- A scalar JSON/Python value as it appears in worker payloads.  `vnone` is
Python `None`. -/
inductive PyVal where
  | vnone
  | vstr (s : String)
  | vint (n : Int)
  | vbool (b : Bool)
deriving DecidableEq, Repr

/-- A Python dict with scalar values: an association list in insertion order.
Python guarantees no duplicate keys; operations below preserve that. -/
abbrev PyDict := List (String × PyVal)

/-- Dict lookup: `some v` when the key is present (first, hence only,
occurrence), `none` when absent. -/
def dget? : PyDict → String → Option PyVal
  | [], _ => none
  | kv :: rest, k => if kv.1 = k then some kv.2 else dget? rest k

/-- Python `d.get(k)`: yields `None` when the key is absent. -/
def dget (d : PyDict) (k : String) : PyVal :=
  (dget? d k).getD .vnone

/-- The keys of a dict, in insertion order. -/
def keysOf (d : PyDict) : List String := d.map Prod.fst

/-- A dict whose keys are distinct (always true of a real Python dict). -/
abbrev NodupKeys (d : PyDict) : Prop := (keysOf d).Nodup

/-- Python truthiness of a scalar value. -/
def truthy : PyVal → Bool
  | .vnone => false
  | .vstr s => !s.isEmpty
  | .vint n => n != 0
  | .vbool b => b

/-- The string payload of a value, for values used in URL paths.  The worker
only interpolates string ids. -/
def PyVal.asStr : PyVal → String
  | .vstr s => s
  | _ => ""

/-- Python `d[k] = v`: overwrite in place when present, append when absent. -/
def dsetItem (d : PyDict) (k : String) (v : PyVal) : PyDict :=
  if (dget? d k).isSome then
    d.map (fun kv => if kv.1 = k then (kv.1, v) else kv)
  else
    d ++ [(k, v)]

/-- Python `d.update(p)` (how the manager merges a Result payload into
`state_details`).  Modelled from the spec: the Worker Manager is not part of
the sources under verification; spec section 4.1 states the payload of a
`Success`/`Defer` result is merged into the task's `state_details`. -/
def dictUpdate (d : PyDict) (p : PyDict) : PyDict :=
  p.foldl (fun acc kv => dsetItem acc kv.1 kv.2) d

/-- Extensional equality of dicts (Python `==` on dicts ignores insertion
order). -/
def dictEquiv (a b : PyDict) : Bool :=
  (keysOf a).all (fun k => dget? a k == dget? b k) &&
  (keysOf b).all (fun k => dget? a k == dget? b k)

/-- First phase of `_normalize_for_patch`: `desired.setdefault(key,
existing[key])` for every key of `existing` (copy unknown keys from the
existing state so the patch does not clear them). -/
def setdefaults (desired existing : PyDict) : PyDict :=
  desired ++ existing.filter (fun kv => (dget? desired kv.1).isNone)

/-- `_normalize_for_patch(existing, desired)` from
`doni/driver/worker/ironic.py`.  Phase 1 copies keys only present in
`existing` into `desired`; phase 2 drops every key whose (phase-1) desired
value is `None` from `desired`, and also from `existing` when `existing`'s
value for it is `None` as well.  Returns the pair (existing, desired) after
the in-place mutation. -/
def normalize_for_patch (existing desired : PyDict) : PyDict × PyDict :=
  let desired1 := setdefaults desired existing
  let desired2 := desired1.filter (fun kv => kv.2 != .vnone)
  let existing2 :=
    existing.filter (fun kv => !(kv.2 == .vnone && dget? desired1 kv.1 == some .vnone))
  (existing2, desired2)

/-! ## Ironic worker (`doni/driver/worker/ironic.py`) -/

/-- The portion of an Ironic node compared against the desired state: the
keys of `desired_state` projected out of the node (`existing_state` in
`_do_node_update`). -/
structure NodeState where
  uuid : PyVal
  name : PyVal
  driver : PyVal
  driver_info : PyDict
  resource_class : PyVal
  properties : PyDict
deriving DecidableEq, Repr

/-- The classes of HTTP requests the Ironic worker issues.  `getNode` and
`getPorts` are the only read-only requests. -/
inductive ICall where
  | getNode
  | postNode (body : NodeState)
  | putProvision (targetVerb : String)
  | patchNode
  | getPorts
  | postPort (mac : String)
  | patchPort (portUuid : String)
  | deletePort (portUuid : String)
deriving DecidableEq, Repr

/-- Whether a request mutates external state (anything but a GET). -/
def ICall.isMutating : ICall → Bool
  | .getNode => false
  | .getPorts => false
  | _ => true

/-- `IRONIC_STATE_TARGETS`: the provision API's transition verbs differ from
the state names.  Only the two keys below exist in the source mapping and
only those two are ever looked up. -/
def ironicStateTarget (state : String) : String :=
  if state = "manageable" then "manage"
  else if state = "available" then "provide"
  else state

/-- `PROVISION_STATE_TIMEOUT` (seconds). -/
def provisionStateTimeout : Nat := 60

/-- The responses one `_wait_for_provision_state` invocation observes: the
provision state returned by its initial GET, and by the k-th GET inside the
polling loop. -/
structure WaitEnv where
  initState : String
  poll : Nat → String

/-- The polling loop of `_wait_for_provision_state`.  The Python loop checks
`elapsed > timeout` before each sleep/GET; time advances only through the
fixed 15-second sleeps, so the check at iteration `k` reads `15*k > timeout`,
which fails for the first time at `k = timeout/15 + 1`.  We recurse
structurally on that remaining-checks budget.  Returns the number of GETs
performed and whether `IronicNodeProvisionStateTimeout` was raised. -/
def pollLoop (we : WaitEnv) (target : String) : Nat → Nat → Nat × Bool
  | _, 0 => (0, true)
  | k, checksLeft + 1 =>
    if we.poll k = target then (1, false)
    else
      let r := pollLoop we target (k + 1) checksLeft
      (r.1 + 1, r.2)

/-- `_wait_for_provision_state`: initial GET; if the state already equals the
target, return at once; otherwise issue the transition request and poll.
Returns the trace of calls and whether the timeout condition was raised. -/
def waitInner (we : WaitEnv) (target : String) (timeout : Nat) : List ICall × Bool :=
  if we.initState = target then ([.getNode], false)
  else
    let lp := pollLoop we target 0 (timeout / 15 + 1)
    (.getNode :: .putProvision (ironicStateTarget target) :: List.replicate lp.1 .getNode,
      lp.2)

/-- `wait_for_provision_state`: runs `_wait_for_provision_state` and converts
the timeout condition into a `Defer` result with the fixed reason; on normal
completion the Python function returns `None` (modelled as `none`).  Callers
in the source ignore this return value. -/
def wait_for_provision_state (we : WaitEnv) (target : String) (timeout : Nat) :
    List ICall × Option String :=
  let r := waitInner we target timeout
  (r.1, if r.2 then some "Failed to change provision state." else none)

/-- An Ironic node as returned by `GET /nodes/{uuid}`. -/
structure IronicNode where
  uuid : String
  name : PyVal
  driver : PyVal
  driver_info : PyDict
  resource_class : PyVal
  properties : PyDict
  provision_state : String
  maintenance : Bool
  created_at : PyVal
deriving Repr

/-- `{key: ironic_node.get(key) for key in desired_state.keys()}`. -/
def IronicNode.toState (n : IronicNode) : NodeState :=
  { uuid := .vstr n.uuid
    name := n.name
    driver := n.driver
    driver_info := n.driver_info
    resource_class := n.resource_class
    properties := n.properties }

/-- Deep equality of the compared node states; `jsonpatch.make_patch`
produces the empty patch exactly when the two documents are equal as JSON
values, so `if not patch:` is embedded as this equality. -/
def stateEquiv (a b : NodeState) : Bool :=
  a.uuid == b.uuid && a.name == b.name && a.driver == b.driver &&
  dictEquiv a.driver_info b.driver_info &&
  a.resource_class == b.resource_class &&
  dictEquiv a.properties b.properties

/-- A hardware item as the Ironic worker reads it: scalar properties in
`props`, the `baremetal_capabilities` mapping (when present) and the
`interfaces` list broken out since they are nested, non-scalar values. -/
structure HardwareIronic where
  uuid : String
  name : String
  props : PyDict
  capabilities : Option (List (String × String))
  interfaces : List PyDict

/-- The `",".join(f"{key}:{value}" ...)` capabilities string: only built when
the property is a non-empty mapping, otherwise `None`. -/
def capabilitiesValue (hw : HardwareIronic) : PyVal :=
  match hw.capabilities with
  | some caps =>
    if caps.isEmpty then .vnone
    else .vstr (String.intercalate "," (caps.map (fun kv => kv.1 ++ ":" ++ kv.2)))
  | none => .vnone

/-- The `desired_state` dict built at the top of `IronicWorker.process`. -/
def desired_state (hw : HardwareIronic) : NodeState :=
  { uuid := .vstr hw.uuid
    name := .vstr hw.name
    driver := dget hw.props "baremetal_driver"
    driver_info := [
      ("ipmi_address", dget hw.props "management_address"),
      ("ipmi_username", dget hw.props "ipmi_username"),
      ("ipmi_password", dget hw.props "ipmi_password"),
      ("ipmi_port", dget hw.props "ipmi_port"),
      ("ipmi_terminal_port", dget hw.props "ipmi_terminal_port"),
      ("deploy_kernel", dget hw.props "baremetal_deploy_kernel_image"),
      ("deploy_ramdisk", dget hw.props "baremetal_deploy_ramdisk_image")]
    resource_class := dget hw.props "baremetal_resource_class"
    properties := [
      ("capabilities", capabilitiesValue hw),
      ("cpu_arch", dget hw.props "cpu_arch")] }

/-- An Ironic port as returned by `GET /ports?node=...&detail=True`. -/
structure Port where
  portUuid : String
  address : String
  extra : PyDict
  local_link_connection : PyDict
  pxe_enabled : PyVal
deriving Repr

/-- The three keys of a port compared in `_do_port_updates`. -/
structure PortState where
  extra : PyDict
  llc : PyDict
  pxe_enabled : PyVal

/-- `_desired_port_state(iface)`. -/
def desired_port_state (iface : PyDict) : PortState :=
  { extra := [("name", dget iface "name")]
    llc :=
      if truthy (dget iface "switch_id") && truthy (dget iface "switch_port_id") then
        [("switch_id", dget iface "switch_id"),
         ("port_id", dget iface "switch_port_id"),
         ("switch_info", (dget? iface "switch_info").getD (.vstr ""))]
      else []
    pxe_enabled := (dget? iface "pxe_enabled").getD (.vbool true) }

/-- Insert with last-wins semantics, keeping first-occurrence key order: the
behaviour of a Python dict comprehension keyed by MAC. -/
def upsert {α : Type} (d : List (String × α)) (k : String) (v : α) : List (String × α) :=
  if (d.find? (fun kv => kv.1 == k)).isSome then
    d.map (fun kv => if kv.1 == k then (kv.1, v) else kv)
  else
    d ++ [(k, v)]

/-- `{key(x).lower(): x for x in items}`. -/
def byKey {α : Type} (key : α → String) (items : List α) : List (String × α) :=
  items.foldl (fun acc it => upsert acc (key it) it) []

/-- Python `str.lower()` (structural implementation over the character
list). -/
def lowerStr (s : String) : String := String.mk (s.data.map Char.toLower)

/-- The lowercased MAC of an interface dict (`i["mac_address"].lower()`). -/
def macOf (iface : PyDict) : String :=
  lowerStr (dget iface "mac_address").asStr

/-- Lookup in a keyed list (`ports_by_mac[mac]` / `ifaces_by_mac[mac]`). -/
def keyedGet {α : Type} (d : List (String × α)) (k : String) : Option α :=
  (d.find? (fun kv => kv.1 == k)).map Prod.snd

/-- Whether the per-port patch of `_do_port_updates` is empty: the existing
`{extra, local_link_connection, pxe_enabled}` sub-dict equals the desired
one after normalizing `extra` and `local_link_connection`. -/
def portPatchEmpty (p : Port) (iface : PyDict) : Bool :=
  let des := desired_port_state iface
  let ne := normalize_for_patch p.extra des.extra
  let nl := normalize_for_patch p.local_link_connection des.llc
  dictEquiv ne.1 ne.2 && dictEquiv nl.1 nl.2 && p.pxe_enabled == des.pxe_enabled

/-- The external responses one `IronicWorker.process` invocation observes.
`waits` supplies the poll responses of the successive
`wait_for_provision_state` invocations, in order. -/
structure IronicEnv where
  node : Option IronicNode
  createdNode : IronicNode
  patchedNode : IronicNode
  ports : List Port
  waits : Nat → WaitEnv

/-- The result of `IronicWorker.process` (no exception paths arise in the
scenarios modelled: every API response supplied by the environment is a
success, and the timeout condition is caught inside
`wait_for_provision_state`). -/
inductive IronicResult where
  | success (payload : PyDict)
  | defer (reason : String)
deriving DecidableEq, Repr

/-- `_do_port_updates`: list ports, bucket by MAC, diff the MAC sets, and
apply creates/patches/deletes, moving the node to `manageable` for the
duration when the three sets are not all empty.  Python iterates the three
sets in unspecified order; we iterate in first-occurrence order of the
respective dicts, which only fixes the order (not the content) of the
trace.  `widx` indexes into `env.waits`; returns the trace and the next
unused index. -/
def do_port_updates (env : IronicEnv) (interfaces : List PyDict) (widx : Nat) :
    List ICall × Nat :=
  let ports_by_mac := byKey (fun p : Port => lowerStr p.address) env.ports
  let ifaces_by_mac := byKey macOf interfaces
  let existing := ports_by_mac.map Prod.fst
  let desired := (ifaces_by_mac.filter
    (fun kv => truthy ((dget? kv.2 "enabled").getD (.vbool true)))).map Prod.fst
  let ifaces_to_add := desired.filter (fun m => !(existing.contains m))
  let ifaces_to_update := desired.filter (fun m => existing.contains m)
  let ifaces_to_remove := existing.filter (fun m => !(desired.contains m))
  let needs_managable :=
    !ifaces_to_add.isEmpty || !ifaces_to_update.isEmpty || !ifaces_to_remove.isEmpty
  let waitUp :=
    if needs_managable then
      (waitInner (env.waits widx) "manageable" provisionStateTimeout).1
    else []
  let addCalls := ifaces_to_add.map (fun m => ICall.postPort m)
  let updCalls := ifaces_to_update.filterMap (fun m =>
    match keyedGet ports_by_mac m, keyedGet ifaces_by_mac m with
    | some p, some iface =>
      if portPatchEmpty p iface then none else some (ICall.patchPort p.portUuid)
    | _, _ => none)
  let remCalls := ifaces_to_remove.filterMap (fun m =>
    (keyedGet ports_by_mac m).map (fun p => ICall.deletePort p.portUuid))
  let widx1 := if needs_managable then widx + 1 else widx
  let waitDown :=
    if needs_managable then
      (waitInner (env.waits widx1) "available" provisionStateTimeout).1
    else []
  let widx2 := if needs_managable then widx1 + 1 else widx1
  (.getPorts :: waitUp ++ addCalls ++ updCalls ++ remCalls ++ waitDown, widx2)

/-- `_do_node_create`: POST the node, then drive it through `manageable` and
`available`.  The values returned by the two `wait_for_provision_state`
invocations (a `Defer` on timeout) are discarded, exactly as in the source.
Consumes `env.waits 0` and `env.waits 1`. -/
def do_node_create (env : IronicEnv) (desired : NodeState) : List ICall × PyDict :=
  let w1 := (waitInner (env.waits 0) "manageable" provisionStateTimeout).1
  let w2 := (waitInner (env.waits 1) "available" provisionStateTimeout).1
  (.postNode desired :: w1 ++ w2, [("created_at", env.createdNode.created_at)])

/-- `_do_node_update`: project the node onto the desired keys, normalize
`driver_info` and `properties`, and if the resulting patch is empty return
at once with no further calls; otherwise move to `manageable` when needed,
patch, and return to `available` (wait results again discarded).  Returns
the trace, the success payload, and the next unused wait index. -/
def do_node_update (env : IronicEnv) (node : IronicNode) (desired : NodeState) :
    List ICall × PyDict × Nat :=
  let existing := node.toState
  let ndi := normalize_for_patch existing.driver_info desired.driver_info
  let npr := normalize_for_patch existing.properties desired.properties
  let existing1 := { existing with driver_info := ndi.1, properties := npr.1 }
  let desired1 := { desired with driver_info := ndi.2, properties := npr.2 }
  if stateEquiv existing1 desired1 then
    ([], [("created_at", node.created_at)], 0)
  else
    let needsManage := node.provision_state != "manageable"
    let w1 :=
      if needsManage then (waitInner (env.waits 0) "manageable" provisionStateTimeout).1
      else []
    let widx1 := if needsManage then 1 else 0
    let w2 := (waitInner (env.waits widx1) "available" provisionStateTimeout).1
    (w1 ++ [.patchNode] ++ w2, [("created_at", env.patchedNode.created_at)], widx1 + 1)

/-- The `Defer` reason of the maintenance guard in `IronicWorker.process`. -/
def maintenanceReason : String :=
  "Node is in maintenance mode. Please take the node out of maintenance to apply this update."

/-- `IronicWorker.process`: GET the node; create it (and reconcile ports)
when absent; refuse to touch it when in maintenance; otherwise update it and
reconcile ports. -/
def ironic_process (env : IronicEnv) (hw : HardwareIronic) : List ICall × IronicResult :=
  let desired := desired_state hw
  match env.node with
  | none =>
    let c := do_node_create env desired
    let p := do_port_updates env hw.interfaces 2
    (.getNode :: c.1 ++ p.1, .success c.2)
  | some node =>
    if node.maintenance then
      ([.getNode], .defer maintenanceReason)
    else
      let u := do_node_update env node desired
      let p := do_port_updates env hw.interfaces u.2.2
      (.getNode :: u.1 ++ p.1, .success u.2.1)

/-! ## Blazar worker (`doni/driver/worker/blazar/__init__.py`) -/

/-- `AW_LEASE_PREFIX`, the marker availability-window lease names start
with. -/
def awLeaseTag : String := "availability_window_"

/-- The classes of HTTP requests the Blazar worker issues.  The two GETs
(`resourceGet`, `resourceListGet`, `leaseListGet`) are read-only. -/
inductive BCall where
  | resourcePost
  | resourceGet (rid : String)
  | resourcePut (rid : String)
  | resourceListGet
  | resourceDelete (rid : String)
  | leaseListGet
  | leasePost (leaseName : String)
  | leasePut (leaseId : String)
  | leaseDelete (leaseId : String)
deriving DecidableEq, Repr

/-- Whether a request mutates external state. -/
def BCall.isMutating : BCall → Bool
  | .resourceGet _ => false
  | .resourceListGet => false
  | .leaseListGet => false
  | _ => true

/-- The `WorkerResult` tagged union.  Modelled from the spec: the
`doni.worker` module defining it is not among the sources under
verification; spec section 3 describes a Result as `Success{payload}` or
`Defer{payload, reason}` with the payload merged into `state_details`.
Python defaults both payload and reason to empty/None. -/
inductive WResult where
  | success (payload : PyDict)
  | defer (payload : PyDict) (reason : Option String)
deriving DecidableEq, Repr

/-- The payload carried by a result. -/
def WResult.payload : WResult → PyDict
  | .success p => p
  | .defer p _ => p

/-- Whether a result is a `Defer`. -/
def WResult.isDefer : WResult → Bool
  | .defer _ _ => true
  | .success _ => false

/-- Whether a result is a `Success`. -/
def WResult.isSuccess : WResult → Bool
  | .success _ => true
  | .defer _ _ => false

/-- Exceptions the Blazar worker can raise: `BlazarIsWrongError`, or a
`KeystoneServiceAPIError` it does not catch (carrying the status code). -/
inductive BErr where
  | blazarIsWrong (message : String)
  | apiError (code : Nat)
deriving DecidableEq, Repr

/-- An external response: a 2xx with a JSON body, or an error status. -/
inductive ApiResp where
  | ok (body : PyDict)
  | err (code : Nat)
deriving DecidableEq, Repr

/-- An external lease as the worker reads it.  Dates are minutes since an
epoch: the worker writes and compares dates through the minute-precision
`BLAZAR_DATE_FORMAT` (`%Y-%m-%d %H:%M`), which is injective on
minute-precision instants, so string equality of formatted dates coincides
with equality of these numbers (the embedding assumes the service echoes
dates in that same format).  `reservationsRepr` is the string rendering of
the `reservations` value that `_lease_list` greps for the hardware UUID. -/
structure BLease where
  leaseId : String
  name : String
  start_date : Nat
  end_date : Nat
  reservationsRepr : String
deriving DecidableEq, Repr

/-- An availability window; `start`/`stop` are seconds since the same
epoch (the window instants carry sub-minute precision). -/
structure AvailabilityWindow where
  uuid : String
  hardware_uuid : String
  start : Nat
  stop : Nat
deriving DecidableEq, Repr

/-- The lease name `to_lease` derives from a window. -/
def leaseName (aw : AvailabilityWindow) : String := awLeaseTag ++ aw.uuid

/-- The canonical lease `to_lease` builds from a window: name from the
window UUID and dates truncated to minute precision by `strftime`.  (The
`reservations` clause is sent on create but popped before any comparison or
update, so it is not represented.) -/
structure LeaseReq where
  name : String
  start_date : Nat
  end_date : Nat
deriving DecidableEq, Repr

/-- `BaseBlazarWorker.to_lease`. -/
def to_lease (aw : AvailabilityWindow) : LeaseReq :=
  { name := leaseName aw, start_date := aw.start / 60, end_date := aw.stop / 60 }

/-- Whether the second character list is an initial segment of the first. -/
def startsWithList : List Char → List Char → Bool
  | _, [] => true
  | [], _ :: _ => false
  | h :: hs, n :: ns => h == n && startsWithList hs ns

/-- Whether the second character list occurs inside the first. -/
def containsList : List Char → List Char → Bool
  | [], n => n.isEmpty
  | h :: hs, n => startsWithList (h :: hs) n || containsList hs n

/-- Substring test (`needle in haystack`). -/
def strContains (haystack needle : String) : Bool :=
  containsList haystack.data needle.data

/-- The external responses one `BaseBlazarWorker.process` invocation
observes.  Lease create responses are keyed by the lease name, update and
delete responses by the lease id; `now` is `datetime.now(tz=UTC)` in
seconds. -/
structure BlazarEnv where
  resourceCreateResp : ApiResp
  resourceGetResp : ApiResp
  resourcePutResp : ApiResp
  resourceDeleteResp : ApiResp
  resourceList : List PyDict
  leases : List BLease
  leaseCreateResp : String → ApiResp
  leasePutResp : String → ApiResp
  leaseDeleteResp : String → ApiResp
  now : Nat
  nowStr : String

/-- `BaseBlazarWorker._lease_list`: every external lease whose name starts
with the availability-window marker and whose reservations mention the
hardware UUID. -/
def lease_list (env : BlazarEnv) (hwUuid : String) : List BLease :=
  env.leases.filter (fun l =>
    startsWithList l.name.data awLeaseTag.data && strContains l.reservationsRepr hwUuid)

/-- `BaseBlazarWorker._lease_create`: POST the lease; 404 and 409 are
converted to `Defer`, anything else raises. -/
def lease_create (env : BlazarEnv) (nl : LeaseReq) : Except BErr (List BCall × WResult) :=
  match env.leaseCreateResp nl.name with
  | .ok body => .ok ([.leasePost nl.name], .success [("lease_created_at", dget body "created_at")])
  | .err 404 => .ok ([.leasePost nl.name], .defer [] (some "Resource not found"))
  | .err 409 => .ok ([.leasePost nl.name], .defer [] (some "Conflicts with existing lease"))
  | .err c => .error (.apiError c)

/-- `BaseBlazarWorker._lease_update`: PUT the new start/end dates; 404 and
409 are converted to `Defer`, anything else raises. -/
def lease_update (env : BlazarEnv) (leaseId : String) : Except BErr (List BCall × WResult) :=
  match env.leasePutResp leaseId with
  | .ok body => .ok ([.leasePut leaseId], .success [("updated_at", dget body "updated_at")])
  | .err 404 => .ok ([.leasePut leaseId], .defer [] (some "Resource not found"))
  | .err 409 => .ok ([.leasePut leaseId], .defer [] (some "Conflicts with existing lease"))
  | .err c => .error (.apiError c)

/-- `BaseBlazarWorker._lease_delete`: DELETE; any error status raises. -/
def lease_delete (env : BlazarEnv) (leaseId : String) : Except BErr (List BCall × WResult) :=
  match env.leaseDeleteResp leaseId with
  | .ok _ => .ok ([.leaseDelete leaseId], .success [])
  | .err c => .error (.apiError c)

/-- The `next((...(index, lease)...))` scan: the first lease in the list
whose name equals the new lease's name, with its index. -/
def findMatch : List BLease → String → Option (Nat × BLease)
  | [], _ => none
  | l :: rest, nm =>
    if l.name = nm then some (0, l)
    else (findMatch rest nm).map (fun p => (p.1 + 1, p.2))

/-- Whether the matched lease differs from the desired one.  The code checks
`lease_for_update.items() <= matching_lease.items()` where
`lease_for_update` holds only name, start and end dates and the names are
equal by the match, so the subset test reduces to date equality. -/
def leaseDiffers (aw : AvailabilityWindow) (l : BLease) : Bool :=
  !(l.start_date == aw.start / 60 && l.end_date == aw.stop / 60)

/-- The late-start special case: the existing lease already started (its
start is in the past relative to now) and the window's minute-truncated
start moved later. -/
def lateStart (env : BlazarEnv) (aw : AvailabilityWindow) (l : BLease) : Bool :=
  decide (l.start_date * 60 < env.now) && decide (aw.start / 60 > l.start_date)

/-- One iteration of the availability-window loop in
`process_availability_windows`: match the window's lease name against the
remaining external leases; create when unmatched; pop the match and skip,
update, or (in the late-start case) delete-and-recreate otherwise.  Returns
the calls issued, the lease results collected, and the remaining leases. -/
def window_step (env : BlazarEnv) (leases : List BLease) (aw : AvailabilityWindow) :
    Except BErr (List BCall × List WResult × List BLease) :=
  match findMatch leases (leaseName aw) with
  | none =>
    match lease_create env (to_lease aw) with
    | .error e => .error e
    | .ok c => .ok (c.1, [c.2], leases)
  | some (i, ml) =>
    if !(leaseDiffers aw ml) then
      .ok ([], [], leases.eraseIdx i)
    else if lateStart env aw ml then
      match lease_delete env ml.leaseId with
      | .error e => .error e
      | .ok d =>
        match lease_create env (to_lease aw) with
        | .error e => .error e
        | .ok c => .ok (d.1 ++ c.1, [d.2, c.2], leases.eraseIdx i)
    else
      match lease_update env ml.leaseId with
      | .error e => .error e
      | .ok u => .ok (u.1, [u.2], leases.eraseIdx i)

/-- The availability-window loop folded over all windows. -/
def windows_fold (env : BlazarEnv) :
    List AvailabilityWindow → List BLease →
    Except BErr (List BCall × List WResult × List BLease)
  | [], leases => .ok ([], [], leases)
  | aw :: rest, leases =>
    match window_step env leases aw with
    | .error e => .error e
    | .ok s =>
      match windows_fold env rest s.2.2 with
      | .error e => .error e
      | .ok r => .ok (s.1 ++ r.1, s.2.1 ++ r.2.1, r.2.2)

/-- The trailing loop deleting every lease left unmatched. -/
def delete_leases (env : BlazarEnv) :
    List BLease → Except BErr (List BCall × List WResult)
  | [] => .ok ([], [])
  | l :: rest =>
    match lease_delete env l.leaseId with
    | .error e => .error e
    | .ok d =>
      match delete_leases env rest with
      | .error e => .error e
      | .ok r => .ok (d.1 ++ r.1, d.2 :: r.2)

/-- `BaseBlazarWorker.process_availability_windows`: list the relevant
leases, reconcile each desired window against them, delete the leftovers,
and aggregate: any `Defer` among the lease and delete results turns the
whole call into a `Defer` carrying the resource result's payload; otherwise
the resource result is passed through unchanged.  Returns the trace, the
collected per-lease results, and the aggregate result. -/
def process_availability_windows (env : BlazarEnv) (hwUuid : String)
    (aws : List AvailabilityWindow) (resource_result : WResult) :
    Except BErr (List BCall × List WResult × WResult) :=
  match windows_fold env aws (lease_list env hwUuid) with
  | .error e => .error e
  | .ok w =>
    match delete_leases env w.2.2 with
    | .error e => .error e
    | .ok d =>
      let results := w.2.1 ++ d.2
      let aggregate :=
        if results.any WResult.isDefer then
          WResult.defer resource_result.payload
            (some "One or more availability window leases failed to update")
        else resource_result
      .ok (.leaseListGet :: w.1 ++ d.1, results, aggregate)

/-- `resource_pk` of the base worker class: resources are looked up by
name. -/
def resource_pk : String := "name"

/-- `BaseBlazarWorker._find_resource`: list all resources and return the
first whose `resource_pk` field equals the wanted name. -/
def find_resource (env : BlazarEnv) (name : String) : Option PyDict :=
  env.resourceList.find? (fun r => dget r resource_pk == .vstr name)

/-- `BaseBlazarWorker._resource_create`: POST the resource; on 404 defer (the
underlying entity is missing); on 409 look the resource up by name, cache
its id in the payload and defer, or raise `BlazarIsWrongError` when no
match exists; other errors raise.  (The source message for the raise uses a
contraction; it is reproduced here without it.) -/
def resource_create (env : BlazarEnv) (name : String) :
    Except BErr (List BCall × WResult) :=
  match env.resourceCreateResp with
  | .ok body =>
    .ok ([.resourcePost], .success
      [("blazar_resource_id", dget body "id"),
       ("resource_created_at", dget body "created_at")])
  | .err 404 =>
    .ok ([.resourcePost], .defer []
      (some "Can not make resource reservable, as the underlying entity could not be found."))
  | .err 409 =>
    match find_resource env name with
    | some r =>
      .ok ([.resourcePost, .resourceListGet],
        .defer [("blazar_resource_id", dget r "id")] none)
    | none =>
      .error (.blazarIsWrong
        "Could not find resource in Blazar, yet Blazar returned a 409 on host create. Check Blazar for errors.")
  | .err c => .error (.apiError c)

/-- `BaseBlazarWorker._resource_update`: GET the current state; when no
expected key differs, succeed without writing; otherwise PUT.  A 404 (from
either call) clears the cached id in the payload and defers; a 409 defers
with an empty payload and the active-lease reason; other errors raise. -/
def resource_update (env : BlazarEnv) (rid : String) (expected_state : PyDict) :
    Except BErr (List BCall × WResult) :=
  match env.resourceGetResp with
  | .err 404 =>
    .ok ([.resourceGet rid], .defer [("blazar_resource_id", .vnone)] (some "Resource not found"))
  | .err 409 =>
    .ok ([.resourceGet rid], .defer [] (some "Active leases exist for resource"))
  | .err c => .error (.apiError c)
  | .ok existing_state =>
    if (keysOf expected_state).all (fun k => dget existing_state k == dget expected_state k) then
      .ok ([.resourceGet rid], .success [])
    else
      match env.resourcePutResp with
      | .ok body =>
        .ok ([.resourceGet rid, .resourcePut rid], .success
          [("blazar_resource_id", dget body "id"),
           ("resource_updated_at", dget body "updated_at")])
      | .err 404 =>
        .ok ([.resourceGet rid, .resourcePut rid],
          .defer [("blazar_resource_id", .vnone)] (some "Resource not found"))
      | .err 409 =>
        .ok ([.resourceGet rid, .resourcePut rid],
          .defer [] (some "Active leases exist for resource"))
      | .err c => .error (.apiError c)

/-- A hardware item as the Blazar worker reads it. -/
structure BlazarHW where
  uuid : String
  deleted : Bool
deriving Repr

/-- The resource-sync half of `BaseBlazarWorker.process` (non-deleted path):
update through the cached id when `state_details` has a truthy
`blazar_resource_id`, otherwise create under the primary key
(`to_resource_pk` of the base class is the hardware UUID).  `expected_state`
stands for the desired resource state the method computes from the hardware
properties and the subclass `expected_state` hook (the project-name
dereference it may perform issues only read requests). -/
def sync_resource (env : BlazarEnv) (hw : BlazarHW) (state_details : PyDict)
    (expected_state : PyDict) : Except BErr (List BCall × WResult) :=
  let resource_id := dget state_details "blazar_resource_id"
  if truthy resource_id then
    resource_update env resource_id.asStr expected_state
  else
    resource_create env hw.uuid

/-- `BaseBlazarWorker.process`.  Deleted hardware: clean the availability
windows up first, pass any non-`Success` through, raise `BlazarIsWrongError`
when no resource id is cached, otherwise delete the resource and succeed
with the cached id cleared.  Live hardware: sync the resource, return early
on `Defer`, otherwise reconcile the availability windows. -/
def blazar_process (env : BlazarEnv) (hw : BlazarHW)
    (aws : List AvailabilityWindow) (state_details : PyDict)
    (expected_state : PyDict) : Except BErr (List BCall × WResult) :=
  let resource_id := dget state_details "blazar_resource_id"
  if hw.deleted then
    match process_availability_windows env hw.uuid aws (.success []) with
    | .error e => .error e
    | .ok c =>
      match c.2.2 with
      | .defer p r => .ok (c.1, .defer p r)
      | .success _ =>
        if !(truthy resource_id) then
          .error (.blazarIsWrong
            ("Tried to delete resource for " ++ hw.uuid ++ ", but no record of matching Blazar resource"))
        else
          match env.resourceDeleteResp with
          | .ok _ =>
            .ok (c.1 ++ [.resourceDelete resource_id.asStr], .success
              [("blazar_resource_id", .vnone),
               ("resource_created_at", .vnone),
               ("resource_deleted_at", .vstr env.nowStr)])
          | .err code => .error (.apiError code)
  else
    match sync_resource env hw state_details expected_state with
    | .error e => .error e
    | .ok s =>
      match s.2 with
      | .defer p r => .ok (s.1, .defer p r)
      | .success _ =>
        match process_availability_windows env hw.uuid aws s.2 with
        | .error e => .error e
        | .ok w => .ok (s.1 ++ w.1, w.2.2)

/-- The task states the Worker Manager records.  Modelled from the spec: the
manager module is not among the sources under verification; spec sections 3
and 4.1 state that a raised error is caught by the manager and recorded as
ERROR, a `Success` moves the task to STEADY, and a `Defer` keeps it
converging. -/
inductive TaskState where
  | steady
  | converging
  | errored
deriving DecidableEq, Repr

/-- How the Worker Manager interprets one `process` outcome (modelled from
the spec, see `TaskState`). -/
def managerState : Except BErr (List BCall × WResult) → TaskState
  | .error _ => .errored
  | .ok (_, .success _) => .steady
  | .ok (_, .defer _ _) => .converging

/-! ## Call-class predicates -/

/-- Whether an Ironic result is a `Defer`. -/
def IronicResult.isDefer : IronicResult → Bool
  | .defer _ => true
  | .success _ => false

/-- Whether a Blazar call is a lease create. -/
def isLeasePostCall : BCall → Bool
  | .leasePost _ => true
  | _ => false

/-- Whether a Blazar call is a lease update. -/
def isLeasePutCall : BCall → Bool
  | .leasePut _ => true
  | _ => false

/-- Whether a Blazar call is a lease delete. -/
def isLeaseDeleteCall : BCall → Bool
  | .leaseDelete _ => true
  | _ => false

/-- Whether a Blazar call is a resource create attempt. -/
def isResourcePostCall : BCall → Bool
  | .resourcePost => true
  | _ => false

/-- Whether a Blazar call touches leases (list, create, update, delete). -/
def isLeaseCall : BCall → Bool
  | .leaseListGet => true
  | .leasePost _ => true
  | .leasePut _ => true
  | .leaseDelete _ => true
  | _ => false

/-- Whether a lease carries the name `to_lease` derives for the window (the
match criterion of `process_availability_windows`). -/
def windowMatches (aw : AvailabilityWindow) (l : BLease) : Bool :=
  l.name == leaseName aw

/-- A desired window no lease of `L` matches by name. -/
def unmatchedWindow (L : List BLease) (aw : AvailabilityWindow) : Bool :=
  !(L.any (windowMatches aw))

/-- A desired window matched by a lease of `L` that differs from it. -/
def changedWindow (L : List BLease) (aw : AvailabilityWindow) : Bool :=
  L.any (fun l => windowMatches aw l && leaseDiffers aw l)

/-- An existing lease no desired window matches by name. -/
def unmatchedLease (aws : List AvailabilityWindow) (l : BLease) : Bool :=
  !(aws.any (fun aw => windowMatches aw l))

/-! ## Concrete scenarios used as counterexamples and witnesses -/

/-- A freshly created Ironic node. -/
def ironicNodeA : IronicNode :=
  { uuid := "hw-1", name := .vstr "node-1", driver := .vstr "ipmi",
    driver_info := [], resource_class := .vnone, properties := [],
    provision_state := "enroll", maintenance := false,
    created_at := .vstr "2026-01-01" }

/-- Hardware for the Ironic create scenario (no interfaces). -/
def hwC1 : HardwareIronic :=
  { uuid := "hw-1", name := "node-1",
    props := [("baremetal_driver", .vstr "ipmi"),
              ("management_address", .vstr "10.0.0.1")],
    capabilities := none, interfaces := [] }

/-- A provisioning state machine that never leaves `enroll`: every poll
times out. -/
def stuckWaitEnv : WaitEnv := { initState := "enroll", poll := fun _ => "enroll" }

/-- Ironic environment in which the node does not exist and provisioning
never converges. -/
def envC1 : IronicEnv :=
  { node := none, createdNode := ironicNodeA, patchedNode := ironicNodeA,
    ports := [], waits := fun _ => stuckWaitEnv }

/-- A provisioning state machine stuck in `available`: a transition request
towards `manageable` never converges. -/
def stuckAvailableWaitEnv : WaitEnv :=
  { initState := "available", poll := fun _ => "available" }

/-- An existing node (not in maintenance) whose `driver_info` differs from
`hwC1`'s desired state, forcing the update path to request `manageable`. -/
def nodeC1u : IronicNode := { ironicNodeA with provision_state := "available" }

/-- Ironic environment for the update-path timeout scenario: the node exists,
its patch is non-empty, and the transition to `manageable` times out. -/
def envC1u : IronicEnv :=
  { node := some nodeC1u, createdNode := ironicNodeA, patchedNode := ironicNodeA,
    ports := [], waits := fun _ => stuckAvailableWaitEnv }

/-- Hardware whose desired node state and single enabled interface exactly
match the external node and port below. -/
def hwC2 : HardwareIronic :=
  { uuid := "hw-2", name := "node-2",
    props := [("baremetal_driver", .vstr "ipmi"),
              ("baremetal_resource_class", .vstr "baremetal"),
              ("management_address", .vstr "10.0.0.2"),
              ("ipmi_username", .vstr "admin"),
              ("ipmi_password", .vstr "pw"),
              ("cpu_arch", .vstr "x86_64")],
    capabilities := none,
    interfaces := [[("name", .vstr "eth0"), ("mac_address", .vstr "AA:BB:CC:00:11:22")]] }

/-- The external node already equal to `hwC2`'s desired state. -/
def nodeC2 : IronicNode :=
  { uuid := "hw-2", name := .vstr "node-2", driver := .vstr "ipmi",
    driver_info := [("ipmi_address", .vstr "10.0.0.2"),
                    ("ipmi_username", .vstr "admin"),
                    ("ipmi_password", .vstr "pw")],
    resource_class := .vstr "baremetal",
    properties := [("cpu_arch", .vstr "x86_64")],
    provision_state := "available", maintenance := false,
    created_at := .vstr "2026-01-02" }

/-- The external port already equal to the desired state of `hwC2`'s only
interface. -/
def portC2 : Port :=
  { portUuid := "port-1", address := "aa:bb:cc:00:11:22",
    extra := [("name", .vstr "eth0")], local_link_connection := [],
    pxe_enabled := .vbool true }

/-- Provisioning responses for the converged-node scenario: the transitions
requested by `_do_port_updates` succeed after one poll. -/
def waitsC2 : Nat → WaitEnv := fun n =>
  if n = 0 then { initState := "available", poll := fun _ => "manageable" }
  else { initState := "manageable", poll := fun _ => "available" }

/-- Ironic environment in which node and port already match the desired
state exactly. -/
def envC2 : IronicEnv :=
  { node := some nodeC2, createdNode := nodeC2, patchedNode := nodeC2,
    ports := [portC2], waits := waitsC2 }

/-- `nodeC2` flagged as in maintenance. -/
def nodeC8 : IronicNode := { nodeC2 with maintenance := true }

/-- `envC2` with the node in maintenance. -/
def envC8 : IronicEnv := { envC2 with node := some nodeC8 }

/-- A Blazar environment in which every request succeeds and nothing
exists externally. -/
def baseBlazarEnv : BlazarEnv :=
  { resourceCreateResp := .ok [("id", .vstr "5"), ("created_at", .vstr "t0")]
    resourceGetResp := .ok []
    resourcePutResp := .ok []
    resourceDeleteResp := .ok []
    resourceList := []
    leases := []
    leaseCreateResp := fun _ => .ok [("created_at", .vstr "t1")]
    leasePutResp := fun _ => .ok [("updated_at", .vstr "t2")]
    leaseDeleteResp := fun _ => .ok []
    now := 0
    nowStr := "2026-02-01" }

/-- A window whose lease exists externally and matches exactly. -/
def awMatched : AvailabilityWindow :=
  { uuid := "w1", hardware_uuid := "hw-b", start := 60000, stop := 120000 }

/-- A window with no external lease. -/
def awNew : AvailabilityWindow :=
  { uuid := "w2", hardware_uuid := "hw-b", start := 300000, stop := 360000 }

/-- The external lease exactly matching `awMatched`. -/
def leaseMatched : BLease :=
  { leaseId := "L1", name := "availability_window_w1",
    start_date := 1000, end_date := 2000,
    reservationsRepr := "res-for-hw-b" }

/-- An external lease no window refers to. -/
def leaseStale : BLease :=
  { leaseId := "L2", name := "availability_window_zz",
    start_date := 3000, end_date := 4000,
    reservationsRepr := "res-for-hw-b" }

/-- Blazar environment for the lease-set reconciliation scenario. -/
def envC3 : BlazarEnv := { baseBlazarEnv with leases := [leaseMatched, leaseStale] }

/-- An external lease that already started (in the scenario below `now` is
later than its start) and differs from its window. -/
def leaseLate : BLease :=
  { leaseId := "L3", name := "availability_window_w3",
    start_date := 100, end_date := 200,
    reservationsRepr := "res-for-hw-b" }

/-- The window matching `leaseLate` whose start moved later. -/
def awLate : AvailabilityWindow :=
  { uuid := "w3", hardware_uuid := "hw-b", start := 30000, stop := 60000 }

/-- Blazar environment for the late-start special case (`now` is past the
existing lease's start). -/
def envC4 : BlazarEnv := { baseBlazarEnv with leases := [leaseLate], now := 12000 }

/-- The sole external resource of the duplicate-create scenario. -/
def resourceC5 : PyDict := [("name", .vstr "hw-5"), ("id", .vstr "5")]

/-- Blazar environment in which the resource create conflicts and a resource
of the same name exists. -/
def envC5 : BlazarEnv :=
  { baseBlazarEnv with resourceCreateResp := .err 409, resourceList := [resourceC5] }

/-- Blazar environment in which the resource update hits a stale id (404 on
the PUT). -/
def envC6 : BlazarEnv :=
  { baseBlazarEnv with
    resourceGetResp := .ok [("x", .vstr "old")]
    resourcePutResp := .err 404 }

/-- Blazar environment in which the lease create conflicts, deferring the
lease operation. -/
def envC7 : BlazarEnv :=
  { baseBlazarEnv with leaseCreateResp := fun _ => .err 409 }

/-- Live hardware item for the Blazar scenarios. -/
def hwB : BlazarHW := { uuid := "hw-b", deleted := false }

/-- Deleted hardware item for the deletion scenario. -/
def hwDel : BlazarHW := { uuid := "hw-d", deleted := true }

/-! ## Dictionary lemmas -/

theorem dget?_eq_none {d : PyDict} {k : String} : dget? d k = none ↔ k ∉ keysOf d := by
  induction d with
  | nil => simp [dget?, keysOf]
  | cons kv rest ih =>
    simp only [dget?, keysOf, List.map_cons, List.mem_cons]
    by_cases h : kv.1 = k
    · simp [h]
    · have hk : ¬ k = kv.1 := fun e => h e.symm
      rw [if_neg h, ih]
      simp [keysOf, hk]

theorem dget?_append_some {a : PyDict} {k : String} {v : PyVal} (b : PyDict)
    (h : dget? a k = some v) : dget? (a ++ b) k = some v := by
  induction a with
  | nil => simp [dget?] at h
  | cons kv rest ih =>
    by_cases hk : kv.1 = k <;> simp_all [dget?]

theorem dget?_append_none {a : PyDict} {k : String} (b : PyDict)
    (h : dget? a k = none) : dget? (a ++ b) k = dget? b k := by
  induction a with
  | nil => simp
  | cons kv rest ih =>
    by_cases hk : kv.1 = k <;> simp_all [dget?]

theorem nodupKeys_cons {kv : String × PyVal} {rest : PyDict} (h : NodupKeys (kv :: rest)) :
    kv.1 ∉ keysOf rest ∧ NodupKeys rest := by
  simpa [NodupKeys, keysOf, List.nodup_cons] using h

theorem dget?_filter {d : PyDict} (p : String × PyVal → Bool) (k : String)
    (hnd : NodupKeys d) :
    dget? (d.filter p) k = (dget? d k).bind (fun v => if p (k, v) then some v else none) := by
  induction d with
  | nil => simp [dget?]
  | cons kv rest ih =>
    obtain ⟨k1, v1⟩ := kv
    obtain ⟨hmem, hrest⟩ := nodupKeys_cons hnd
    by_cases hk : k1 = k
    · subst hk
      cases hp : p (k1, v1) with
      | true => simp [dget?, hp]
      | false =>
        have hnone : dget? rest k1 = none := dget?_eq_none.mpr hmem
        simp [dget?, hp, ih hrest, hnone]
    · cases hp : p (k1, v1) with
      | true => simp [dget?, hp, hk, ih hrest]
      | false => simp [dget?, hp, hk, ih hrest]

theorem dget?_map_set {d : PyDict} {k : String} (v : PyVal)
    (hs : (dget? d k).isSome) :
    dget? (d.map (fun kv => if kv.1 = k then (kv.1, v) else kv)) k = some v := by
  induction d with
  | nil => simp [dget?] at hs
  | cons kv rest ih =>
    by_cases hk : kv.1 = k
    · simp [dget?, hk]
    · simp only [dget?, if_neg hk] at hs
      simp only [List.map_cons, if_neg hk, dget?]
      exact ih hs

theorem dget?_dsetItem_self (d : PyDict) (k : String) (v : PyVal) :
    dget? (dsetItem d k v) k = some v := by
  unfold dsetItem
  split
  · rename_i hs
    exact dget?_map_set v hs
  · rename_i hs
    have hnone : dget? d k = none := by
      cases h : dget? d k with
      | none => rfl
      | some w => rw [h] at hs; simp at hs
    rw [dget?_append_none _ hnone]
    simp [dget?]

theorem nodupKeys_filter {d : PyDict} (p : String × PyVal → Bool) (h : NodupKeys d) :
    NodupKeys (d.filter p) := by
  have hsub : List.Sublist ((d.filter p).map Prod.fst) (d.map Prod.fst) :=
    (List.filter_sublist d).map Prod.fst
  exact hsub.nodup h

theorem nodupKeys_setdefaults {desired existing : PyDict}
    (hd : NodupKeys desired) (he : NodupKeys existing) :
    NodupKeys (setdefaults desired existing) := by
  have hf : NodupKeys (existing.filter (fun kv => (dget? desired kv.1).isNone)) :=
    nodupKeys_filter _ he
  have : (keysOf (setdefaults desired existing)).Nodup := by
    simp only [setdefaults, keysOf, List.map_append, List.nodup_append]
    refine ⟨hd, hf, ?_⟩
    intro k hk hk2
    simp only [List.mem_map] at hk2
    obtain ⟨kv, hkv, rfl⟩ := hk2
    have := List.of_mem_filter hkv
    rw [Option.isNone_iff_eq_none, dget?_eq_none] at this
    exact this hk
  exact this

/-- Phase 1 carries a key only present in `existing` into `desired`. -/
theorem dget?_setdefaults_carry {desired existing : PyDict} {k : String} {v : PyVal}
    (hd : dget? desired k = none) (he : dget? existing k = some v) :
    dget? (setdefaults desired existing) k = some v := by
  rw [setdefaults, dget?_append_none _ hd]
  induction existing with
  | nil => simp [dget?] at he
  | cons kv rest ih =>
    obtain ⟨k1, v1⟩ := kv
    by_cases hk : k1 = k
    · subst hk
      simp [dget?] at he
      subst he
      simp [List.filter, dget?, hd, Option.isNone_iff_eq_none]
    · simp only [dget?, if_neg hk] at he
      cases hp : (dget? desired k1).isNone <;>
        simp [List.filter, hp, dget?, hk, ih he]

/-- Phase 1 does not change the value of a key already present in
`desired`. -/
theorem dget?_setdefaults_keep {desired : PyDict} (existing : PyDict) {k : String}
    {v : PyVal} (hd : dget? desired k = some v) :
    dget? (setdefaults desired existing) k = some v :=
  dget?_append_some _ hd

/-- C9 counterexample: the claim asserts that every key present in existing
but absent from desired ends up in desired with existing's value.  For a key
whose existing value is null this fails: the carried-over null is then
treated as a removal and dropped from the output desired state. -/
theorem C9_counterexample :
    ¬ (∀ (existing desired : PyDict) (k : String),
        (dget? existing k).isSome → dget? desired k = none →
        dget? (normalize_for_patch existing desired).2 k = dget? existing k) := by
  intro h
  have := h [("a", .vnone)] [] "a" (by decide) (by decide)
  simp [normalize_for_patch, setdefaults, dget?, List.filter] at this

/-- C9 (amended): after `_normalize_for_patch`, (1) a key present in
existing with a non-null value and absent from desired ends up in desired
with existing's value; (2) a key whose desired value is null is removed from
desired, is removed from existing exactly when existing's value for it is
also null, and when existing lacks the key entirely both sides end without
it, so no patch operation arises for it. -/
theorem C9_main (existing desired : PyDict) (k : String)
    (hne : NodupKeys existing) (hnd : NodupKeys desired) :
    ((∀ v, dget? existing k = some v → v ≠ .vnone → dget? desired k = none →
        dget? (normalize_for_patch existing desired).2 k = some v) ∧
     (dget? desired k = some .vnone →
        dget? (normalize_for_patch existing desired).2 k = none ∧
        (∀ v, dget? existing k = some v →
          dget? (normalize_for_patch existing desired).1 k =
            (if v = .vnone then none else some v)) ∧
        (dget? existing k = none →
          dget? (normalize_for_patch existing desired).1 k = none))) := by
  have hnd1 : NodupKeys (setdefaults desired existing) := nodupKeys_setdefaults hnd hne
  constructor
  · intro v hv hvn hdk
    have h1 : dget? (setdefaults desired existing) k = some v :=
      dget?_setdefaults_carry hdk hv
    simp only [normalize_for_patch]
    rw [dget?_filter _ _ hnd1, h1]
    simp [hvn]
  · intro hdk
    have h1 : dget? (setdefaults desired existing) k = some .vnone :=
      dget?_setdefaults_keep existing hdk
    refine ⟨?_, ?_, ?_⟩
    · simp only [normalize_for_patch]
      rw [dget?_filter _ _ hnd1, h1]
      simp
    · intro v hv
      simp only [normalize_for_patch]
      rw [dget?_filter _ _ hne, hv]
      by_cases hvn : v = .vnone
      · subst hvn
        simp [h1]
      · simp [hvn, h1]
    · intro hv
      simp only [normalize_for_patch]
      rw [dget?_filter _ _ hne, hv]
      simp

/-- C9 witness: the amended statement applied to a concrete pair of dicts
covering all three cases. -/
theorem C9_witness :
    dget? (normalize_for_patch
      [("keep", .vstr "x"), ("drop", .vnone)]
      [("stale", .vnone)]).2 "keep" = some (.vstr "x") := by
  have h := C9_main [("keep", .vstr "x"), ("drop", .vnone)] [("stale", .vnone)] "keep"
    (by decide) (by decide)
  exact h.1 (.vstr "x") (by decide) (by decide) (by decide)

/-! ## Ironic claims -/

/-- C1 (amended): whenever the polling loop of `_wait_for_provision_state`
never observes the target state within the budget, the typed timeout
condition is raised at the algorithm level and `wait_for_provision_state`
converts it one level up into a `Defer` with reason "Failed to change
provision state." — but both callers, `_do_node_create` and
`_do_node_update`, discard that returned value, so every `process`
invocation that passes the maintenance guard (create path or update path,
whatever its waits do, timing out included) returns Success, not that
Defer. -/
theorem C1_main (we : WaitEnv) (target : String) (timeout : Nat)
    (env : IronicEnv) (hw : HardwareIronic)
    (htimeout : (waitInner we target timeout).2 = true)
    (hnm : ∀ node, env.node = some node → node.maintenance = false) :
    (wait_for_provision_state we target timeout).2 =
      some "Failed to change provision state." ∧
    ∃ p, (ironic_process env hw).2 = .success p := by
  constructor
  · simp [wait_for_provision_state, htimeout]
  · cases hn : env.node with
    | none =>
      exact ⟨[("created_at", env.createdNode.created_at)],
        by simp [ironic_process, hn, do_node_create]⟩
    | some node =>
      have hm : node.maintenance = false := hnm node hn
      exact ⟨(do_node_update env node (desired_state hw)).2.1,
        by simp [ironic_process, hn, hm]⟩

/-- C1 counterexample: a concrete create invocation in which provisioning
never converges (every poll times out), yet `process` returns Success — the
claim that the process invocation returns the timeout `Defer` (not Success)
is false on this input. -/
theorem C1_counterexample :
    (waitInner (envC1.waits 0) "manageable" provisionStateTimeout).2 = true ∧
    (ironic_process envC1 hwC1).2 = .success [("created_at", .vstr "2026-01-01")] := by
  exact ⟨by decide, by decide⟩

/-- C1 witness: the amended statement at a concrete update-path invocation
(the node exists, is not in maintenance, its patch is non-empty) whose
transition to `manageable` times out — the case the repository's own
timeout test exercises. -/
theorem C1_witness :
    (wait_for_provision_state (envC1u.waits 0) "manageable" provisionStateTimeout).2 =
      some "Failed to change provision state." ∧
    ∃ p, (ironic_process envC1u hwC1).2 = .success p :=
  C1_main (envC1u.waits 0) "manageable" provisionStateTimeout envC1u hwC1
    (by decide)
    (by
      intro node h
      have h2 : nodeC1u = node := Option.some.inj h
      rw [← h2]
      rfl)

/-- C2 (code-bug evaluation): a fully converged second invocation — the
external node equals the desired state (the node-level update issues no
calls) and the single enabled interface exactly matches the existing port
(its patch is empty) — still issues two provision-state transition requests,
because `_do_port_updates` decides `needs_managable` from the MAC-set
intersection rather than from actual differences.  The repository's own
test (`test_ironic_skips_update_on_empty_patch`) expects exactly the two
read-only calls here. -/
theorem C2_code_bug_eval :
    (do_node_update envC2 nodeC2 (desired_state hwC2)).1 = [] ∧
    portPatchEmpty portC2 [("name", .vstr "eth0"), ("mac_address", .vstr "AA:BB:CC:00:11:22")] = true ∧
    (ironic_process envC2 hwC2).2 = .success [("created_at", .vstr "2026-01-02")] ∧
    ((ironic_process envC2 hwC2).1.filter ICall.isMutating) =
      [.putProvision "manage", .putProvision "provide"] := by
  refine ⟨by decide, by decide, by decide, by decide⟩

/-- C8: when the external node exists and its maintenance flag is set,
`process` returns the maintenance `Defer` immediately, after the single
read-only node GET — zero mutating calls. -/
theorem C8_main (env : IronicEnv) (hw : HardwareIronic) (node : IronicNode)
    (hnode : env.node = some node) (hmaint : node.maintenance = true) :
    ironic_process env hw = ([.getNode], .defer maintenanceReason) ∧
    ((ironic_process env hw).1.filter ICall.isMutating) = [] := by
  have h1 : ironic_process env hw = ([.getNode], .defer maintenanceReason) := by
    simp [ironic_process, hnode, hmaint]
  refine ⟨h1, ?_⟩
  rw [h1]
  decide

/-- C8 witness: the maintenance guard at a concrete node flagged as in
maintenance. -/
theorem C8_witness :
    ironic_process envC8 hwC2 = ([.getNode], .defer maintenanceReason) :=
  (C8_main envC8 hwC2 nodeC8 rfl rfl).1

/-! ## Blazar helper lemmas -/

theorem any_congr {α : Type} {p q : α → Bool} {l : List α}
    (h : ∀ a ∈ l, p a = q a) : l.any p = l.any q := by
  induction l with
  | nil => rfl
  | cons a rest ih =>
    simp only [List.any_cons]
    rw [h a (by simp), ih (fun b hb => h b (by simp [hb]))]

/-- When lease names are distinct, the unique lease named `nm` decides any
existential over leases of that name. -/
theorem any_unique {L : List BLease} {nm : String} {p : BLease → Bool} {ml : BLease}
    (hnd : (L.map BLease.name).Nodup) (hml : ml ∈ L) (hname : ml.name = nm) :
    (L.any fun l => (l.name == nm) && p l) = p ml := by
  induction L with
  | nil => simp at hml
  | cons l rest ih =>
    rw [List.map_cons, List.nodup_cons] at hnd
    rcases List.mem_cons.mp hml with rfl | hmem
    · have hrest : rest.any (fun l => (l.name == nm) && p l) = false := by
        rw [List.any_eq_false]
        intro a ha
        have hne : a.name ≠ nm := by
          intro e
          apply hnd.1
          have hm : a.name ∈ List.map BLease.name rest := List.mem_map_of_mem BLease.name ha
          rwa [e, ← hname] at hm
        simp [hne]
      simp [List.any_cons, hname, hrest]
    · have hne : l.name ≠ nm := by
        intro e
        exact hnd.1 (by rw [e, ← hname]; exact List.mem_map_of_mem BLease.name hmem)
      simp [List.any_cons, hne, ih hnd.2 hmem]

theorem lease_create_ok {env : BlazarEnv} {nl : LeaseReq} {c : List BCall} {r : WResult}
    (h : lease_create env nl = .ok (c, r)) : c = [.leasePost nl.name] := by
  unfold lease_create at h
  split at h <;> simp_all

theorem lease_update_ok {env : BlazarEnv} {lid : String} {c : List BCall} {r : WResult}
    (h : lease_update env lid = .ok (c, r)) : c = [.leasePut lid] := by
  unfold lease_update at h
  split at h <;> simp_all

theorem lease_delete_ok {env : BlazarEnv} {lid : String} {c : List BCall} {r : WResult}
    (h : lease_delete env lid = .ok (c, r)) : c = [.leaseDelete lid] ∧ r = .success [] := by
  unfold lease_delete at h
  split at h <;> simp_all

theorem findMatch_none {L : List BLease} {nm : String} :
    findMatch L nm = none ↔ ∀ l ∈ L, l.name ≠ nm := by
  induction L with
  | nil => simp [findMatch]
  | cons l rest ih =>
    by_cases h : l.name = nm <;> simp [findMatch, h, ih]

theorem findMatch_some {L : List BLease} {nm : String} {i : Nat} {ml : BLease}
    (h : findMatch L nm = some (i, ml)) : ml.name = nm ∧ ml ∈ L := by
  induction L generalizing i with
  | nil => simp [findMatch] at h
  | cons l rest ih =>
    by_cases hl : l.name = nm
    · simp [findMatch, hl] at h
      obtain ⟨-, rfl⟩ := h
      exact ⟨hl, by simp⟩
    · simp only [findMatch, if_neg hl, Option.map_eq_some'] at h
      obtain ⟨⟨j, ml'⟩, hj, he⟩ := h
      simp at he
      obtain ⟨-, rfl⟩ := he
      obtain ⟨h1, h2⟩ := ih hj
      exact ⟨h1, by simp [h2]⟩

theorem findMatch_eraseIdx {L : List BLease} {nm : String} {i : Nat} {ml : BLease}
    (hnd : (L.map BLease.name).Nodup)
    (h : findMatch L nm = some (i, ml)) :
    L.eraseIdx i = L.filter (fun l => !(l.name == nm)) := by
  induction L generalizing i with
  | nil => simp [findMatch] at h
  | cons l rest ih =>
    rw [List.map_cons, List.nodup_cons] at hnd
    by_cases hl : l.name = nm
    · simp [findMatch, hl] at h
      obtain ⟨rfl, -⟩ := h
      have hrest : rest.filter (fun l => !(l.name == nm)) = rest := by
        rw [List.filter_eq_self]
        intro a ha
        have : a.name ≠ nm := fun e => hnd.1 (hl ▸ e ▸ List.mem_map_of_mem BLease.name ha)
        simp [this]
      simp [List.eraseIdx, List.filter_cons, hl, hrest]
    · simp only [findMatch, if_neg hl, Option.map_eq_some'] at h
      obtain ⟨⟨j, ml'⟩, hj, he⟩ := h
      simp at he
      obtain ⟨hi, hml⟩ := he
      subst hi
      subst hml
      simp [List.eraseIdx, List.filter_cons, hl, ih hnd.2 hj]

/-- Case analysis of one availability-window iteration, when no matched pair
is in the late-start special case. -/
theorem window_step_ok {env : BlazarEnv} {L : List BLease} {aw : AvailabilityWindow}
    {out : List BCall × List WResult × List BLease}
    (h : window_step env L aw = .ok out)
    (hns : ∀ l ∈ L, l.name = leaseName aw → lateStart env aw l = false) :
    (findMatch L (leaseName aw) = none ∧ out.1 = [.leasePost (leaseName aw)] ∧
      out.2.2 = L) ∨
    (∃ i ml, findMatch L (leaseName aw) = some (i, ml) ∧ out.2.2 = L.eraseIdx i ∧
      ((leaseDiffers aw ml = false ∧ out.1 = []) ∨
       (leaseDiffers aw ml = true ∧ out.1 = [.leasePut ml.leaseId]))) := by
  unfold window_step at h
  cases hfm : findMatch L (leaseName aw) with
  | none =>
    rw [hfm] at h
    cases hc : lease_create env (to_lease aw) with
    | error e => simp [hc] at h
    | ok c =>
      have hshape := lease_create_ok hc
      simp only [hc, Except.ok.injEq] at h
      subst h
      exact Or.inl ⟨rfl, by simpa [to_lease] using hshape, rfl⟩
  | some im =>
    obtain ⟨i, ml⟩ := im
    rw [hfm] at h
    have hmem := findMatch_some hfm
    have hlate : lateStart env aw ml = false := hns ml hmem.2 hmem.1
    cases hdiff : leaseDiffers aw ml with
    | false =>
      simp only [hdiff, Bool.not_false, if_true, Except.ok.injEq] at h
      subst h
      exact Or.inr ⟨i, ml, rfl, rfl, Or.inl ⟨hdiff, rfl⟩⟩
    | true =>
      simp only [hdiff, hlate, Bool.not_true, Bool.false_eq_true, if_false] at h
      cases hu : lease_update env ml.leaseId with
      | error e => simp [hu] at h
      | ok u =>
        have hshape := lease_update_ok hu
        simp only [hu, Except.ok.injEq] at h
        subst h
        exact Or.inr ⟨i, ml, rfl, rfl, Or.inr ⟨hdiff, by simpa using hshape⟩⟩

/-- Lease names survive filtering with their uniqueness. -/
theorem nodup_names_filter {L : List BLease} (p : BLease → Bool)
    (h : (L.map BLease.name).Nodup) : ((L.filter p).map BLease.name).Nodup :=
  (((List.filter_sublist L).map BLease.name)).nodup h

/-- The leases matching a window are untouched by dropping the lease of a
window with another name. -/
theorem any_filter_other {L : List BLease} {nm : String}
    {w : AvailabilityWindow} (hne : leaseName w ≠ nm) (p : BLease → Bool) :
    ((L.filter (fun l => !(l.name == nm))).any fun l => windowMatches w l && p l) =
      (L.any fun l => windowMatches w l && p l) := by
  rw [List.any_filter]
  apply any_congr
  intro l _
  by_cases hm : windowMatches w l
  · have hl : l.name = leaseName w := by simpa [windowMatches] using hm
    have : l.name ≠ nm := by rw [hl]; exact hne
    simp [hm, this]
  · simp [hm]

/-- The induction behind the reconciliation counts: over a run of the
availability-window loop, the remaining leases are exactly the name-unmatched
ones, creates happen exactly for the name-unmatched windows, updates exactly
for the matched-but-differing windows, and nothing else is issued. -/
theorem windows_fold_spec {env : BlazarEnv} :
    ∀ (aws : List AvailabilityWindow) (L : List BLease) (cs : List BCall)
      (rs : List WResult) (L' : List BLease),
    (aws.map leaseName).Nodup →
    (L.map BLease.name).Nodup →
    (∀ aw ∈ aws, ∀ l ∈ L, l.name = leaseName aw → lateStart env aw l = false) →
    windows_fold env aws L = .ok (cs, rs, L') →
    L' = L.filter (unmatchedLease aws) ∧
    cs.countP isLeasePostCall = (aws.filter (unmatchedWindow L)).length ∧
    cs.countP isLeasePutCall = (aws.filter (changedWindow L)).length ∧
    cs.countP isLeaseDeleteCall = 0 ∧
    cs.length = cs.countP isLeasePostCall + cs.countP isLeasePutCall := by
  intro aws
  induction aws with
  | nil =>
    intro L cs rs L' _ _ _ h
    simp only [windows_fold, Except.ok.injEq] at h
    obtain ⟨rfl, -, rfl⟩ := h
    refine ⟨?_, by simp [unmatchedWindow], by simp [changedWindow], by simp, by simp⟩
    rw [eq_comm, List.filter_eq_self]
    intro l _
    simp [unmatchedLease]
  | cons aw rest ih =>
    intro L cs rs L' hwn hln hns h
    rw [List.map_cons, List.nodup_cons] at hwn
    cases hws : window_step env L aw with
    | error e => simp [windows_fold, hws] at h
    | ok s =>
      cases hwf : windows_fold env rest s.2.2 with
      | error e => simp [windows_fold, hws, hwf] at h
      | ok r =>
        simp only [windows_fold, hws, hwf, Except.ok.injEq] at h
        obtain ⟨rfl, -, rfl⟩ := h
        have hns1 : ∀ l ∈ L, l.name = leaseName aw → lateStart env aw l = false :=
          fun l hl => hns aw (by simp) l hl
        rcases window_step_ok hws hns1 with
          ⟨hfm, hc1, hL⟩ | ⟨i, ml, hfm, hL, hcase⟩
        · -- no lease matches `aw`: a single create, leases unchanged
          have hnomatch : ∀ l ∈ L, l.name ≠ leaseName aw := findMatch_none.mp hfm
          have hany : L.any (windowMatches aw) = false := by
            rw [List.any_eq_false]
            intro l hl
            simp [windowMatches, hnomatch l hl]
          rw [hL] at hwf
          have hrest := ih L r.1 r.2.1 r.2.2 hwn.2 hln
            (fun w hw l hl => hns w (by simp [hw]) l hl) hwf
          obtain ⟨hL', hpost, hput, hdel, hlen⟩ := hrest
          refine ⟨?_, ?_, ?_, ?_, ?_⟩
          · rw [hL']
            apply List.filter_congr
            intro l hl
            simp [unmatchedLease, List.any_cons, windowMatches, hnomatch l hl]
          · rw [hc1, List.countP_append, hpost, List.filter_cons]
            have h1 : unmatchedWindow L aw = true := by simp [unmatchedWindow, hany]
            rw [h1, if_pos rfl]
            simp only [List.countP_cons, List.countP_nil, List.length_cons]
            simp [isLeasePostCall]
            omega
          · rw [hc1, List.countP_append, hput, List.filter_cons]
            have h1 : changedWindow L aw = false := by
              rw [changedWindow, List.any_eq_false]
              intro l hl
              simp [windowMatches, hnomatch l hl]
            rw [h1]
            simp [isLeasePutCall, List.countP_cons]
          · rw [hc1, List.countP_append, hdel]
            simp [isLeaseDeleteCall, List.countP_cons]
          · rw [hc1]
            simp only [List.length_append, List.countP_append]
            have e1 : List.countP isLeasePostCall [BCall.leasePost (leaseName aw)] = 1 := by
              simp [List.countP_cons, isLeasePostCall]
            have e2 : List.countP isLeasePutCall [BCall.leasePost (leaseName aw)] = 0 := by
              simp [List.countP_cons, isLeasePutCall]
            rw [e1, e2]
            simp only [List.length_cons, List.length_nil]
            omega
        · -- `ml` matches `aw`; it is popped, and updated exactly when it differs
          have hml := findMatch_some hfm
          have hL0 : s.2.2 = L.filter (fun l => !(l.name == leaseName aw)) := by
            rw [hL, findMatch_eraseIdx hln hfm]
          rw [hL0] at hwf
          have hrest := ih (L.filter (fun l => !(l.name == leaseName aw))) r.1 r.2.1 r.2.2
            hwn.2 (nodup_names_filter _ hln)
            (fun w hw l hl => hns w (by simp [hw]) l (List.mem_of_mem_filter hl)) hwf
          obtain ⟨hL', hpost, hput, hdel, hlen⟩ := hrest
          have hneq : ∀ w ∈ rest, leaseName w ≠ leaseName aw := by
            intro w hw e
            exact hwn.1 (e ▸ List.mem_map_of_mem leaseName hw)
          have hposttrans : rest.filter (unmatchedWindow (L.filter (fun l => !(l.name == leaseName aw)))) =
              rest.filter (unmatchedWindow L) := by
            apply List.filter_congr
            intro w hw
            simp only [unmatchedWindow]
            have := any_filter_other (L := L) (hneq w hw) (fun _ => true)
            simp only [Bool.and_true] at this
            rw [this]
          have hchangedtrans : rest.filter (changedWindow (L.filter (fun l => !(l.name == leaseName aw)))) =
              rest.filter (changedWindow L) := by
            apply List.filter_congr
            intro w hw
            simp only [changedWindow]
            rw [any_filter_other (L := L) (hneq w hw) (leaseDiffers w)]
          have hawmatched : L.any (windowMatches aw) = true := by
            rw [List.any_eq_true]
            exact ⟨ml, hml.2, by simp [windowMatches, hml.1]⟩
          have hchangedaw : changedWindow L aw = leaseDiffers aw ml :=
            any_unique hln hml.2 hml.1
          refine ⟨?_, ?_, ?_, ?_, ?_⟩
          · rw [hL', List.filter_filter]
            apply List.filter_congr
            intro l _
            simp [unmatchedLease, List.any_cons, windowMatches, Bool.and_comm]
          · rw [List.countP_append, hpost, hposttrans, List.filter_cons]
            have h1 : unmatchedWindow L aw = false := by
              simp [unmatchedWindow, hawmatched]
            rw [h1]
            rcases hcase with ⟨-, hc1⟩ | ⟨-, hc1⟩ <;>
              simp [hc1, isLeasePostCall, List.countP_cons]
          · rw [List.countP_append, hput, hchangedtrans, List.filter_cons, hchangedaw]
            rcases hcase with ⟨hd, hc1⟩ | ⟨hd, hc1⟩
            · rw [hd, hc1]
              simp
            · rw [hd, hc1]
              simp only [if_pos rfl, List.length_cons]
              simp [isLeasePutCall, List.countP_cons]
              omega
          · rw [List.countP_append, hdel]
            rcases hcase with ⟨-, hc1⟩ | ⟨-, hc1⟩ <;>
              simp [hc1, isLeaseDeleteCall, List.countP_cons]
          · rcases hcase with ⟨-, hc1⟩ | ⟨-, hc1⟩
            · rw [hc1]
              simp only [List.nil_append, List.countP_nil]
              omega
            · rw [hc1]
              simp only [List.length_append, List.countP_append]
              have e1 : List.countP isLeasePostCall [BCall.leasePut ml.leaseId] = 0 := by
                simp [List.countP_cons, isLeasePostCall]
              have e2 : List.countP isLeasePutCall [BCall.leasePut ml.leaseId] = 1 := by
                simp [List.countP_cons, isLeasePutCall]
              rw [e1, e2]
              simp only [List.length_cons, List.length_nil]
              omega
theorem delete_leases_ok {env : BlazarEnv} :
    ∀ {ls : List BLease} {cs : List BCall} {rs : List WResult},
    delete_leases env ls = .ok (cs, rs) →
    cs = ls.map (fun l => BCall.leaseDelete l.leaseId) := by
  intro ls
  induction ls with
  | nil =>
    intro cs rs h
    simp only [delete_leases, Except.ok.injEq] at h
    obtain ⟨rfl, -⟩ := h
    rfl
  | cons l rest ih =>
    intro cs rs h
    cases hd : lease_delete env l.leaseId with
    | error e => simp [delete_leases, hd] at h
    | ok d =>
      cases hr : delete_leases env rest with
      | error e => simp [delete_leases, hd, hr] at h
      | ok r =>
        simp only [delete_leases, hd, hr, Except.ok.injEq] at h
        obtain ⟨rfl, -⟩ := h
        rw [(lease_delete_ok hd).1, ih hr]
        rfl

/-- Inversion of `process_availability_windows`: the aggregate result is the
defer-if-any-deferred rule over the collected lease results, and the trace
decomposes into the list call, the loop calls and the trailing deletes. -/
theorem paw_ok_inv {env : BlazarEnv} {u : String} {aws : List AvailabilityWindow}
    {rr : WResult} {cs : List BCall} {rs : List WResult} {res : WResult}
    (h : process_availability_windows env u aws rr = .ok (cs, rs, res)) :
    res = (if rs.any WResult.isDefer then
        WResult.defer rr.payload
          (some "One or more availability window leases failed to update")
      else rr) ∧
    ∃ w d, windows_fold env aws (lease_list env u) = .ok w ∧
      delete_leases env w.2.2 = .ok d ∧
      cs = .leaseListGet :: w.1 ++ d.1 ∧ rs = w.2.1 ++ d.2 := by
  unfold process_availability_windows at h
  cases hwf : windows_fold env aws (lease_list env u) with
  | error e => simp [hwf] at h
  | ok w =>
    cases hd : delete_leases env w.2.2 with
    | error e => simp [hwf, hd] at h
    | ok d =>
      simp only [hwf, hd, Except.ok.injEq] at h
      obtain ⟨rfl, rfl, rfl⟩ := h
      exact ⟨rfl, w, d, rfl, hd, rfl, rfl⟩

theorem window_step_no_post {env : BlazarEnv} {L : List BLease}
    {aw : AvailabilityWindow} {out : List BCall × List WResult × List BLease}
    (h : window_step env L aw = .ok out) :
    out.1.countP isResourcePostCall = 0 := by
  unfold window_step at h
  cases hfm : findMatch L (leaseName aw) with
  | none =>
    rw [hfm] at h
    cases hc : lease_create env (to_lease aw) with
    | error e => simp [hc] at h
    | ok c =>
      simp only [hc, Except.ok.injEq] at h
      subst h
      rw [lease_create_ok hc]
      simp [isResourcePostCall]
  | some im =>
    obtain ⟨i, ml⟩ := im
    rw [hfm] at h
    cases hdiff : leaseDiffers aw ml with
    | false =>
      simp only [hdiff, Bool.not_false, if_true, Except.ok.injEq] at h
      subst h
      simp
    | true =>
      simp only [hdiff, Bool.not_true, Bool.false_eq_true, if_false] at h
      cases hlate : lateStart env aw ml with
      | true =>
        rw [hlate] at h
        simp only [if_true] at h
        cases hd : lease_delete env ml.leaseId with
        | error e => simp [hd] at h
        | ok d =>
          rw [hd] at h
          cases hc : lease_create env (to_lease aw) with
          | error e => simp [hc] at h
          | ok c =>
            simp only [hc, Except.ok.injEq] at h
            subst h
            rw [List.countP_append, (lease_delete_ok hd).1, lease_create_ok hc]
            simp [isResourcePostCall]
      | false =>
        rw [hlate] at h
        simp only [Bool.false_eq_true, if_false] at h
        cases hu : lease_update env ml.leaseId with
        | error e => simp [hu] at h
        | ok u =>
          simp only [hu, Except.ok.injEq] at h
          subst h
          rw [lease_update_ok hu]
          simp [isResourcePostCall]

theorem windows_fold_no_post {env : BlazarEnv} :
    ∀ {aws : List AvailabilityWindow} {L : List BLease}
      {out : List BCall × List WResult × List BLease},
    windows_fold env aws L = .ok out → out.1.countP isResourcePostCall = 0 := by
  intro aws
  induction aws with
  | nil =>
    intro L out h
    simp only [windows_fold, Except.ok.injEq] at h
    subst h
    rfl
  | cons aw rest ih =>
    intro L out h
    cases hws : window_step env L aw with
    | error e => simp [windows_fold, hws] at h
    | ok s =>
      cases hwf : windows_fold env rest s.2.2 with
      | error e => simp [windows_fold, hws, hwf] at h
      | ok r =>
        simp only [windows_fold, hws, hwf, Except.ok.injEq] at h
        subst h
        rw [List.countP_append, window_step_no_post hws, ih hwf]

theorem paw_no_post {env : BlazarEnv} {u : String} {aws : List AvailabilityWindow}
    {rr : WResult} {out : List BCall × List WResult × WResult}
    (h : process_availability_windows env u aws rr = .ok out) :
    out.1.countP isResourcePostCall = 0 := by
  obtain ⟨-, w, d, hwf, hd, hcs, -⟩ := paw_ok_inv h
  rw [hcs]
  simp only [List.countP_cons, List.countP_append]
  rw [windows_fold_no_post hwf, delete_leases_ok hd]
  have hmap : List.countP isResourcePostCall
      (w.2.2.map fun l => BCall.leaseDelete l.leaseId) = 0 := by
    rw [List.countP_eq_zero]
    intro a ha
    obtain ⟨l, -, rfl⟩ := List.mem_map.mp ha
    simp [isResourcePostCall]
  rw [hmap]
  simp [isResourcePostCall]

theorem resource_update_no_post {env : BlazarEnv} {rid : String}
    {es : PyDict} {out : List BCall × WResult}
    (h : resource_update env rid es = .ok out) :
    out.1.countP isResourcePostCall = 0 := by
  unfold resource_update at h
  split at h
  · simp only [Except.ok.injEq] at h
    subst h
    simp [List.countP_cons, isResourcePostCall]
  · simp only [Except.ok.injEq] at h
    subst h
    simp [List.countP_cons, isResourcePostCall]
  · simp at h
  · split at h
    · simp only [Except.ok.injEq] at h
      subst h
      simp [List.countP_cons, isResourcePostCall]
    · split at h
      · simp only [Except.ok.injEq] at h
        subst h
        simp [List.countP_cons, isResourcePostCall]
      · simp only [Except.ok.injEq] at h
        subst h
        simp [List.countP_cons, isResourcePostCall]
      · simp only [Except.ok.injEq] at h
        subst h
        simp [List.countP_cons, isResourcePostCall]
      · simp at h

/-! ## Blazar claims -/

/-- C3: over one run of the lease reconciliation (lease names and window
lease-names distinct, no matched pair in the late-start special case), the
trace contains exactly one create per name-unmatched desired window, exactly
one update per matched-but-differing lease, exactly one delete per existing
lease left unmatched after all windows are processed, and nothing else
beyond the initial read-only lease listing — in particular zero calls for an
exactly matching lease. -/
theorem C3_main (env : BlazarEnv) (hwUuid : String) (aws : List AvailabilityWindow)
    (rr : WResult) (cs : List BCall) (rs : List WResult) (res : WResult)
    (hwn : (aws.map leaseName).Nodup)
    (hln : ((lease_list env hwUuid).map BLease.name).Nodup)
    (hns : ∀ aw ∈ aws, ∀ l ∈ lease_list env hwUuid,
      l.name = leaseName aw → lateStart env aw l = false)
    (h : process_availability_windows env hwUuid aws rr = .ok (cs, rs, res)) :
    cs.countP isLeasePostCall =
      (aws.filter (unmatchedWindow (lease_list env hwUuid))).length ∧
    cs.countP isLeasePutCall =
      (aws.filter (changedWindow (lease_list env hwUuid))).length ∧
    cs.countP isLeaseDeleteCall =
      ((lease_list env hwUuid).filter (unmatchedLease aws)).length ∧
    cs.length = 1 + cs.countP isLeasePostCall + cs.countP isLeasePutCall +
      cs.countP isLeaseDeleteCall := by
  obtain ⟨-, w, d, hwf, hd, rfl, -⟩ := paw_ok_inv h
  obtain ⟨hrem, hpost, hput, hdel0, hlen⟩ :=
    windows_fold_spec aws (lease_list env hwUuid) w.1 w.2.1 w.2.2 hwn hln hns hwf
  have hdcs : d.1 = (((lease_list env hwUuid).filter (unmatchedLease aws)).map
      (fun l => BCall.leaseDelete l.leaseId)) := by
    rw [delete_leases_ok hd, hrem]
  have hdpost : d.1.countP isLeasePostCall = 0 := by
    rw [hdcs, List.countP_eq_zero]
    intro a ha
    obtain ⟨l, -, rfl⟩ := List.mem_map.mp ha
    simp [isLeasePostCall]
  have hdput : d.1.countP isLeasePutCall = 0 := by
    rw [hdcs, List.countP_eq_zero]
    intro a ha
    obtain ⟨l, -, rfl⟩ := List.mem_map.mp ha
    simp [isLeasePutCall]
  have hddel : d.1.countP isLeaseDeleteCall =
      ((lease_list env hwUuid).filter (unmatchedLease aws)).length := by
    rw [hdcs]
    rw [show List.countP isLeaseDeleteCall (((lease_list env hwUuid).filter
        (unmatchedLease aws)).map (fun l => BCall.leaseDelete l.leaseId)) =
      (((lease_list env hwUuid).filter (unmatchedLease aws)).map
        (fun l => BCall.leaseDelete l.leaseId)).length from ?_]
    · rw [List.length_map]
    · rw [List.countP_eq_length]
      intro a ha
      obtain ⟨l, -, rfl⟩ := List.mem_map.mp ha
      simp [isLeaseDeleteCall]
  refine ⟨?_, ?_, ?_, ?_⟩
  · simp only [List.countP_cons, List.countP_append]
    rw [hpost, hdpost]
    simp [isLeasePostCall]
  · simp only [List.countP_cons, List.countP_append]
    rw [hput, hdput]
    simp [isLeasePutCall]
  · simp only [List.countP_cons, List.countP_append]
    rw [hdel0, hddel]
    simp [isLeaseDeleteCall]
  · simp only [List.countP_cons, List.countP_append, List.length_cons,
      List.length_append]
    rw [hpost, hput, hdel0, hdpost, hdput, hddel]
    have hdlen : d.1.length =
        ((lease_list env hwUuid).filter (unmatchedLease aws)).length := by
      rw [hdcs, List.length_map]
    rw [hpost, hput] at hlen
    have h1 : isLeasePostCall BCall.leaseListGet = false := rfl
    have h2 : isLeasePutCall BCall.leaseListGet = false := rfl
    have h3 : isLeaseDeleteCall BCall.leaseListGet = false := rfl
    rw [h1, h2, h3]
    simp only [Bool.false_eq_true, if_false]
    omega

/-- C3 witness: one exactly matching lease (zero calls), one unmatched
window (one create), one unmatched lease (one delete). -/
theorem C3_witness :
    ([BCall.leaseListGet, .leasePost "availability_window_w2",
        .leaseDelete "L2"].countP isLeasePostCall =
      ([awMatched, awNew].filter (unmatchedWindow (lease_list envC3 "hw-b"))).length) ∧
    ([BCall.leaseListGet, .leasePost "availability_window_w2",
        .leaseDelete "L2"].countP isLeasePutCall =
      ([awMatched, awNew].filter (changedWindow (lease_list envC3 "hw-b"))).length) ∧
    ([BCall.leaseListGet, .leasePost "availability_window_w2",
        .leaseDelete "L2"].countP isLeaseDeleteCall =
      ((lease_list envC3 "hw-b").filter (unmatchedLease [awMatched, awNew])).length) := by
  have h := C3_main envC3 "hw-b" [awMatched, awNew] (.success [])
    [.leaseListGet, .leasePost "availability_window_w2", .leaseDelete "L2"]
    [.success [("lease_created_at", .vstr "t1")], .success []] (.success [])
    (by decide) (by decide) (by decide) rfl
  exact ⟨h.1, h.2.1, h.2.2.1⟩

/-- C4: for a matched, differing window/lease pair, the late-start special
case (existing start in the past and desired minute-truncated start later)
issues exactly a delete of the existing lease followed by a create of the
new one — never a plain update — and every other differing case issues
exactly an in-place update. -/
theorem C4_main (env : BlazarEnv) (L : List BLease) (aw : AvailabilityWindow)
    (i : Nat) (ml : BLease) (out : List BCall × List WResult × List BLease)
    (hmatch : findMatch L (leaseName aw) = some (i, ml))
    (hdiff : leaseDiffers aw ml = true)
    (hout : window_step env L aw = .ok out) :
    (lateStart env aw ml = true →
      out.1 = [.leaseDelete ml.leaseId, .leasePost (leaseName aw)]) ∧
    (lateStart env aw ml = false → out.1 = [.leasePut ml.leaseId]) := by
  unfold window_step at hout
  rw [hmatch] at hout
  simp only [hdiff, Bool.not_true, Bool.false_eq_true, if_false] at hout
  constructor
  · intro hlate
    rw [hlate] at hout
    simp only [if_true] at hout
    cases hd : lease_delete env ml.leaseId with
    | error e => simp [hd] at hout
    | ok d =>
      rw [hd] at hout
      cases hc : lease_create env (to_lease aw) with
      | error e => simp [hc] at hout
      | ok c =>
        simp only [hc, Except.ok.injEq] at hout
        subst hout
        rw [(lease_delete_ok hd).1, lease_create_ok hc]
        rfl
  · intro hlate
    rw [hlate] at hout
    simp only [Bool.false_eq_true, if_false] at hout
    cases hu : lease_update env ml.leaseId with
    | error e => simp [hu] at hout
    | ok u =>
      simp only [hu, Except.ok.injEq] at hout
      subst hout
      exact lease_update_ok hu

/-- C4 witness: the special case at a concrete pair whose lease started in
the past and whose window start moved later. -/
theorem C4_witness :
    (window_step envC4 (lease_list envC4 "hw-b") awLate = .ok
      ([.leaseDelete "L3", .leasePost "availability_window_w3"],
        [.success [], .success [("lease_created_at", .vstr "t1")]], [])) ∧
    ([BCall.leaseDelete "L3", .leasePost "availability_window_w3"],
        ([.success [], .success [("lease_created_at", .vstr "t1")]] : List WResult),
        ([] : List BLease)).1 =
      [.leaseDelete "L3", .leasePost "availability_window_w3"] := by
  refine ⟨rfl, ?_⟩
  exact (C4_main envC4 (lease_list envC4 "hw-b") awLate 0 leaseLate
    ([.leaseDelete "L3", .leasePost "availability_window_w3"],
      [.success [], .success [("lease_created_at", .vstr "t1")]], [])
    (by decide) (by decide) rfl).1 (by decide)

/-- C5: a conflict (409) on resource create makes the worker look the
resource up by name; when found, the returned payload caches exactly that
resource's id (so the merged `state_details` holds exactly one cached
external id) and the result is a `Defer`, not a failure; when no resource
matches despite the conflict, the typed `BlazarIsWrongError` is raised.
Moreover any later `process` invocation whose `state_details` carries a
truthy cached id issues zero resource create attempts. -/
theorem C5_main (env : BlazarEnv) (name : String) (sd : PyDict) (r : PyDict)
    (h409 : env.resourceCreateResp = .err 409) :
    (find_resource env name = some r →
      resource_create env name = .ok ([.resourcePost, .resourceListGet],
        .defer [("blazar_resource_id", dget r "id")] none) ∧
      dget? (dictUpdate sd [("blazar_resource_id", dget r "id")])
        "blazar_resource_id" = some (dget r "id")) ∧
    (find_resource env name = none →
      resource_create env name = .error (.blazarIsWrong
        "Could not find resource in Blazar, yet Blazar returned a 409 on host create. Check Blazar for errors.")) ∧
    (∀ (env2 : BlazarEnv) (hw : BlazarHW) (aws : List AvailabilityWindow)
      (sd2 es : PyDict) (out : List BCall × WResult),
      truthy (dget sd2 "blazar_resource_id") = true →
      blazar_process env2 hw aws sd2 es = .ok out →
      out.1.countP isResourcePostCall = 0) := by
  refine ⟨?_, ?_, ?_⟩
  · intro hfind
    constructor
    · unfold resource_create
      rw [h409, hfind]
    · rw [show dictUpdate sd [("blazar_resource_id", dget r "id")] =
        dsetItem sd "blazar_resource_id" (dget r "id") from rfl]
      exact dget?_dsetItem_self sd "blazar_resource_id" (dget r "id")
  · intro hfind
    unfold resource_create
    rw [h409, hfind]
  · intro env2 hw aws sd2 es out htruthy hrun
    unfold blazar_process at hrun
    cases hdel : hw.deleted with
    | true =>
      rw [hdel] at hrun
      simp only [if_true] at hrun
      cases hp : process_availability_windows env2 hw.uuid aws (.success []) with
      | error e => simp [hp] at hrun
      | ok c =>
        simp only [hp] at hrun
        have hpawz := paw_no_post hp
        cases hres : c.2.2 with
        | defer p rsn =>
          simp only [hres, Except.ok.injEq] at hrun
          subst hrun
          exact hpawz
        | success p =>
          simp only [hres, htruthy, Bool.not_true, Bool.false_eq_true, if_false] at hrun
          cases hdr : env2.resourceDeleteResp with
          | ok body =>
            simp only [hdr, Except.ok.injEq] at hrun
            subst hrun
            simp only [List.countP_append]
            rw [hpawz]
            simp [List.countP_cons, isResourcePostCall]
          | err code =>
            simp [hdr] at hrun
    | false =>
      rw [hdel] at hrun
      simp only [Bool.false_eq_true, if_false] at hrun
      unfold sync_resource at hrun
      simp only [htruthy, if_true] at hrun
      cases hs : resource_update env2 (dget sd2 "blazar_resource_id").asStr es with
      | error e => simp [hs] at hrun
      | ok s =>
        simp only [hs] at hrun
        have hsz := resource_update_no_post hs
        cases hres : s.2 with
        | defer p rsn =>
          simp only [hres, Except.ok.injEq] at hrun
          subst hrun
          exact hsz
        | success p =>
          simp only [hres] at hrun
          cases hp : process_availability_windows env2 hw.uuid aws (.success p) with
          | error e => simp [hp] at hrun
          | ok w =>
            simp only [hp, Except.ok.injEq] at hrun
            subst hrun
            simp only [List.countP_append]
            rw [hsz, paw_no_post hp]

/-- C5 witness: the conflict path at a concrete environment holding a
resource of the wanted name. -/
theorem C5_witness :
    resource_create envC5 "hw-5" = .ok ([.resourcePost, .resourceListGet],
      .defer [("blazar_resource_id", .vstr "5")] none) ∧
    dget? (dictUpdate [] [("blazar_resource_id", .vstr "5")])
      "blazar_resource_id" = some (.vstr "5") := by
  have h := (C5_main envC5 "hw-5" [] resourceC5 (by decide)).1 (by decide)
  exact ⟨h.1, h.2⟩

/-- C6: on an update through a cached id that must write (the fetched state
differs), a 404 yields a `Defer` whose payload sets the cached id to null —
clearing it in the merged `state_details` — while a 409 yields a `Defer`
with an empty payload (merging changes nothing, the cached id is untouched)
and the active-lease reason. -/
theorem C6_main (env : BlazarEnv) (rid : String) (es existing sd : PyDict)
    (hget : env.resourceGetResp = .ok existing)
    (hdiff : ((keysOf es).all (fun k => dget existing k == dget es k)) = false) :
    (env.resourcePutResp = .err 404 →
      resource_update env rid es = .ok ([.resourceGet rid, .resourcePut rid],
        .defer [("blazar_resource_id", .vnone)] (some "Resource not found")) ∧
      dget? (dictUpdate sd [("blazar_resource_id", .vnone)]) "blazar_resource_id" =
        some .vnone) ∧
    (env.resourcePutResp = .err 409 →
      resource_update env rid es = .ok ([.resourceGet rid, .resourcePut rid],
        .defer [] (some "Active leases exist for resource")) ∧
      dictUpdate sd [] = sd) := by
  constructor
  · intro hput
    refine ⟨?_, dget?_dsetItem_self sd "blazar_resource_id" .vnone⟩
    unfold resource_update
    simp only [hget, hdiff, Bool.false_eq_true, if_false, hput]
  · intro hput
    refine ⟨?_, rfl⟩
    unfold resource_update
    simp only [hget, hdiff, Bool.false_eq_true, if_false, hput]

/-- C6 witness: the stale-id (404) branch at a concrete environment, with
the cached id visibly cleared in the merged details. -/
theorem C6_witness :
    resource_update envC6 "5" [("x", .vstr "new")] = .ok
      ([.resourceGet "5", .resourcePut "5"],
        .defer [("blazar_resource_id", .vnone)] (some "Resource not found")) ∧
    dget? (dictUpdate [("blazar_resource_id", .vstr "5")]
      [("blazar_resource_id", .vnone)]) "blazar_resource_id" = some .vnone := by
  exact (C6_main envC6 "5" [("x", .vstr "new")] [("x", .vstr "old")]
    [("blazar_resource_id", .vstr "5")] rfl (by decide)).1 rfl

/-- C7: when the resource sync succeeds, `process` runs the availability
window reconciliation on its result; the whole call is a `Defer` carrying
the resource-sync payload with the aggregate reason exactly when some lease
operation deferred, and the untouched resource-sync `Success` otherwise. -/
theorem C7_main (env : BlazarEnv) (hw : BlazarHW) (aws : List AvailabilityWindow)
    (sd es : PyDict) (rcs cs : List BCall) (rp : PyDict) (rs : List WResult)
    (res : WResult)
    (hdel : hw.deleted = false)
    (hsync : sync_resource env hw sd es = .ok (rcs, .success rp))
    (hpaw : process_availability_windows env hw.uuid aws (.success rp) =
      .ok (cs, rs, res)) :
    blazar_process env hw aws sd es = .ok (rcs ++ cs, res) ∧
    (rs.any WResult.isDefer = true →
      res = .defer rp (some "One or more availability window leases failed to update")) ∧
    (rs.any WResult.isDefer = false → res = .success rp) := by
  have hinv := (paw_ok_inv hpaw).1
  refine ⟨?_, ?_, ?_⟩
  · unfold blazar_process
    simp only [hdel, Bool.false_eq_true, if_false, hsync, hpaw]
  · intro hany
    rw [hinv, hany]
    simp [WResult.payload]
  · intro hany
    rw [hinv, hany]
    simp

/-- C7 witness: a deferring lease create turns a successful resource sync
into the aggregate `Defer`. -/
theorem C7_witness :
    blazar_process envC7 hwB [awNew] [("blazar_resource_id", .vstr "5")] [] =
      .ok ([.resourceGet "5", .leaseListGet, .leasePost "availability_window_w2"],
        .defer [] (some "One or more availability window leases failed to update")) ∧
    WResult.defer [] (some "One or more availability window leases failed to update") =
      .defer [] (some "One or more availability window leases failed to update") := by
  have h := C7_main envC7 hwB [awNew] [("blazar_resource_id", .vstr "5")] []
    [.resourceGet "5"] [.leaseListGet, .leasePost "availability_window_w2"] []
    [.defer [] (some "Conflicts with existing lease")]
    (.defer [] (some "One or more availability window leases failed to update"))
    rfl rfl rfl
  exact ⟨h.1, h.2.1 rfl⟩

/-- C10: for deleted hardware whose availability-window cleanup succeeds but
whose `state_details` carries no truthy cached resource id, `process`
neither succeeds nor defers: it raises the typed `BlazarIsWrongError`, which
the manager records as ERROR; and in the deleted branch a `Success` outcome
occurs only when a truthy cached id was present. -/
theorem C10_main (env : BlazarEnv) (hw : BlazarHW) (aws : List AvailabilityWindow)
    (sd es : PyDict) (cs : List BCall) (rs : List WResult) (res : WResult)
    (hdel : hw.deleted = true)
    (hclean : process_availability_windows env hw.uuid aws (.success []) =
      .ok (cs, rs, res))
    (hsucc : res.isSuccess = true)
    (hnoid : truthy (dget sd "blazar_resource_id") = false) :
    blazar_process env hw aws sd es = .error (.blazarIsWrong
      ("Tried to delete resource for " ++ hw.uuid ++
        ", but no record of matching Blazar resource")) ∧
    managerState (blazar_process env hw aws sd es) = .errored ∧
    (∀ (sd2 : PyDict) (out : List BCall × WResult),
      blazar_process env hw aws sd2 es = .ok out → out.2.isSuccess = true →
      truthy (dget sd2 "blazar_resource_id") = true) := by
  have hres : res = .success [] := by
    have h1 := (paw_ok_inv hclean).1
    cases hany : rs.any WResult.isDefer with
    | false =>
      rw [hany] at h1
      simpa using h1
    | true =>
      rw [hany] at h1
      simp only [if_true] at h1
      rw [h1] at hsucc
      simp [WResult.isSuccess] at hsucc
  have hmain : blazar_process env hw aws sd es = .error (.blazarIsWrong
      ("Tried to delete resource for " ++ hw.uuid ++
        ", but no record of matching Blazar resource")) := by
    unfold blazar_process
    simp only [hdel, if_true, hclean, hres, hnoid, Bool.not_false]
  refine ⟨hmain, by rw [hmain]; rfl, ?_⟩
  intro sd2 out hrun hsuccout
  unfold blazar_process at hrun
  simp only [hdel, if_true, hclean, hres] at hrun
  cases ht : truthy (dget sd2 "blazar_resource_id") with
  | true => rfl
  | false =>
    rw [ht] at hrun
    simp at hrun

/-- C10 witness: empty cleanup succeeds, no cached id, and the typed error
is raised and recorded as ERROR. -/
theorem C10_witness :
    blazar_process baseBlazarEnv hwDel [] [] [] = .error (.blazarIsWrong
      "Tried to delete resource for hw-d, but no record of matching Blazar resource") ∧
    managerState (blazar_process baseBlazarEnv hwDel [] [] []) = .errored := by
  have h := C10_main baseBlazarEnv hwDel [] [] [] [.leaseListGet] [] (.success [])
    rfl rfl rfl rfl
  exact ⟨h.1, h.2.1⟩

end Doni
